import Mathlib

/-!
Verification of the Zelda UCode DSP-HLE core and the PulseAudio backend
(`Source/Core/Core/HW/DSPHLE/UCodes/Zelda.h`,
`Source/Core/AudioCommon/PulseAudioStream.cpp`).

The C++ code is shallowly embedded: machine integers become `Nat`/`Int`
with explicit reduction modulo `2^w` where overflow can occur, `std::array`
fields become functions out of `Fin n`, and member functions become pure
state-passing functions on a `ZeldaState` record.
-/

/-- Reinterpretation of an integer as a 32-bit two's-complement value:
reduces modulo `2^32` into the signed range `[-2^31, 2^31)`.  This models
both the wrapping of C++ `s32` arithmetic (as compiled by GCC) and the
`s32 <- u32` conversion in `ApplyVolumeInPlace`. -/
def wrap32 (x : Int) : Int := (x + 2 ^ 31) % 2 ^ 32 - 2 ^ 31

/-- Reinterpretation of an integer as a 16-bit two's-complement value,
modelling the `s16 <- int` conversion on `(*dst)[i] += ...`. -/
def wrap16 (x : Int) : Int := (x + 2 ^ 15) % 2 ^ 16 - 2 ^ 15

/-- Arithmetic right shift by `n` bits of a (signed) value, i.e. floor
division by `2^n`.  `Int`'s `/` is Euclidean division, which coincides
with floor division for a positive divisor. -/
def asr (x : Int) (n : Nat) : Int := x / 2 ^ n

/-- Embedding of `MathUtil::Clamp(&val, min, max)`: clamp `x` into
`[lo, hi]`. -/
def mathUtilClamp (x lo hi : Int) : Int :=
  if x < lo then lo else if x > hi then hi else x

/-- The `ZeldaUCode::MailState` enumeration from `Zelda.h`. -/
inductive MailState : Type where
  | WAITING : MailState
  | RENDERING : MailState
  | WRITING_CMD : MailState
  | HALTED : MailState
deriving DecidableEq

/-- State of a `ZeldaUCode` object (together with the VPB-independent
fields of its embedded `ZeldaAudioRenderer`), as declared in `Zelda.h`.
The command-buffer offsets are `u32` values that the code keeps in
`[0, 64)` by reducing modulo the buffer capacity on every increment, so
they are embedded as `Fin 64`; `Fin 64` addition is exactly the
`(x + 1) % 64` of the source.  `u32`/`u16` fields are embedded as `Nat`,
`s16` table entries as `Int`. -/
structure ZeldaState : Type where
  mailState : MailState
  expectedCmdMails : Nat
  syncMaxVoiceId : Nat
  syncVoiceSkipFlags : Fin 256 → Nat
  cmdBuffer : Fin 64 → Nat
  readOffset : Fin 64
  writeOffset : Fin 64
  pendingCommandsCount : Nat
  cmdCanExecute : Bool
  renderingRequestedFrames : Nat
  renderingVoicesPerFrame : Nat
  renderingCurrFrame : Nat
  renderingCurrVoice : Nat
  sineTable : Fin 128 → Int
  resamplingCoeffs : Fin 256 → Int
  afcCoeffs : Fin 32 → Int
  vpbBaseAddr : Nat
  outputVolume : Nat
  outputLbufAddr : Nat
  outputRbufAddr : Nat
  prepared : Bool

/-- The default-constructed state of `ZeldaUCode` (all counters zero, all
arrays zero-initialized, `m_cmd_can_execute = true`,
`m_mail_current_state = MailState::WAITING`). -/
def initState : ZeldaState where
  mailState := MailState.WAITING
  expectedCmdMails := 0
  syncMaxVoiceId := 0
  syncVoiceSkipFlags := fun _ => 0
  cmdBuffer := fun _ => 0
  readOffset := 0
  writeOffset := 0
  pendingCommandsCount := 0
  cmdCanExecute := true
  renderingRequestedFrames := 0
  renderingVoicesPerFrame := 0
  renderingCurrFrame := 0
  renderingCurrVoice := 0
  sineTable := fun _ => 0
  resamplingCoeffs := fun _ => 0
  afcCoeffs := fun _ => 0
  vpbBaseAddr := 0
  outputVolume := 0
  outputLbufAddr := 0
  outputRbufAddr := 0
  prepared := false

/-- Embedding of `ZeldaUCode::Read32`: if the read cursor equals the write
cursor, log an error and return 0 leaving the state untouched; otherwise
return the word at the read cursor and advance it modulo the 64-word
capacity. -/
def read32 (s : ZeldaState) : Nat × ZeldaState :=
  if s.readOffset = s.writeOffset then
    (0, s)
  else
    (s.cmdBuffer s.readOffset, { s with readOffset := s.readOffset + 1 })

/-- Embedding of `ZeldaUCode::Write32`: store `val` at the write cursor and
advance it modulo the 64-word capacity. -/
def write32 (s : ZeldaState) (val : Nat) : ZeldaState :=
  { s with
    cmdBuffer := Function.update s.cmdBuffer s.writeOffset val
    writeOffset := s.writeOffset + 1 }

/-- Iterated `Write32` over a list of words, first element written first. -/
def writeAll (s : ZeldaState) : List Nat → ZeldaState
  | [] => s
  | v :: vs => writeAll (write32 s v) vs

/-- Iterated `Read32`, collecting the returned words in order. -/
def readN (s : ZeldaState) : Nat → List Nat × ZeldaState
  | 0 => ([], s)
  | n + 1 =>
    let r := read32 s
    let rest := readN r.2 n
    (r.1 :: rest.1, rest.2)

/-- The loop body of `ZeldaAudioRenderer::AddBuffersWithVolumeRamp`:
walks the destination and source buffers in lockstep; at each sample it
executes `(*dst)[i] += ((vol >> 16) * src[i]) >> 16; vol += step;`.
`vol >> 16` is an arithmetic shift of an `s32`; the product
`(vol >> 16) * src[i]` of an `s16`-range value by an `s16` sample cannot
overflow `int`, so it is a plain `Int` product; the `+=` on the `s16`
destination wraps through `wrap16`; `vol += step` is `s32` addition and
wraps through `wrap32`.  Returns the updated buffer and the final `vol`. -/
def rampLoop : List Int → List Int → Int → Int → List Int × Int
  | d :: ds, c :: cs, vol, step =>
    let contribution := asr (asr vol 16 * c) 16
    let rest := rampLoop ds cs (wrap32 (vol + step)) step
    (wrap16 (d + contribution) :: rest.1, rest.2)
  | ds, _, vol, _ => (ds, vol)

/-- Embedding of `ZeldaAudioRenderer::AddBuffersWithVolumeRamp`: if both
`vol` and `step` are zero it returns `vol` immediately without touching
the destination buffer, otherwise it runs the accumulate-and-ramp loop
over the whole buffer. -/
def addBuffersWithVolumeRamp (dst src : List Int) (vol step : Int) :
    List Int × Int :=
  if vol = 0 ∧ step = 0 then (dst, vol)
  else rampLoop dst src vol step

/-- Embedding of `ZeldaAudioRenderer::ApplyVolumeInPlace<N, B>`: each
sample is cast to `u32` (here `x % 2^32`), multiplied by the `u32` volume
modulo `2^32`, the product reinterpreted as `s32` (`wrap32`), arithmetically
shifted right by `16 - B` bits, clamped to `[-0x8000, 0x7fff]` and stored
back as an `s16`. -/
def applyVolumeInPlace (B : Nat) (buf : List Int) (vol : Nat) : List Int :=
  buf.map fun x =>
    let tmp := wrap32 (x % 2 ^ 32 * (vol : Int))
    mathUtilClamp (asr tmp (16 - B)) (-0x8000) 0x7fff

/-- Embedding of `ZeldaAudioRenderer::ApplyVolumeInPlace_1_15` (1.15
fixed-point volume: `B = 1`, shift by 15). -/
def applyVolumeInPlace_1_15 (buf : List Int) (vol : Nat) : List Int :=
  applyVolumeInPlace 1 buf vol

/-- Embedding of `ZeldaAudioRenderer::ApplyVolumeInPlace_4_12` (4.12
fixed-point volume: `B = 4`, shift by 12). -/
def applyVolumeInPlace_4_12 (buf : List Int) (vol : Nat) : List Int :=
  applyVolumeInPlace 4 buf vol

/-- Modelled from the spec: the sample-loading step of
`ZeldaAudioRenderer::LoadInputSamples` (its body, and the bodies of the
`Download...SamplesFromARAM`/`FromMRAM` helpers it calls, live in
`Zelda.cpp`, which is not part of the sources; only the declarations are
in `Zelda.h`).  Per the spec, samples are fetched sequentially from the
voice's current read offset; at the sample-count boundary a looping voice
wraps back to its loop point, while a voice with looping disabled "must
yield silence, not wrap": every position at or past the sample count
produces a zero sample. -/
def loadInputSamples (data : Nat → Int) (sampleCount : Nat)
    (loopEnabled : Bool) (loopPoint : Nat) (offset : Nat)
    (requested : Nat) : List Int :=
  (List.range requested).map fun j =>
    let pos := offset + j
    if pos < sampleCount then data pos
    else if loopEnabled then
      data (loopPoint + (pos - sampleCount) % (sampleCount - loopPoint))
    else 0

/-- Classification of an incoming mail value while in the WAITING state,
per the spec: either a recognized top-level instruction executed
immediately, or the opcode of a multi-word command carrying the number of
further parameter words expected, or an unrecognized value. -/
inductive MailClass : Type where
  | immediate : MailClass
  | cmdStart : Nat → MailClass
  | invalid : MailClass

/-- Modelled from the spec: the mail-dispatch state machine of
`ZeldaUCode::HandleMail` (its body lives in `Zelda.cpp`, which is not part
of the sources; `Zelda.h` only declares it and defines `MailState`).  The
model is parameterized by the protocol's classification table `classify`,
which the spec leaves protocol-version-specific.  Following the spec:
in WAITING an immediate instruction leaves the queue alone, a multi-word
opcode is written to the command buffer and moves to WRITING_CMD with the
expected parameter count recorded, and an unrecognized value halts; in
WRITING_CMD "each incoming mail is appended to the command buffer
(`Write32`) until the expected parameter count for the current opcode is
reached, then the complete command is considered queued and state returns
to WAITING"; RENDERING holds mail for later processing; HALTED is
absorbing. -/
def handleMailModel (classify : Nat → MailClass) (s : ZeldaState)
    (mail : Nat) : ZeldaState :=
  match s.mailState with
  | MailState.HALTED => s
  | MailState.RENDERING => s
  | MailState.WAITING =>
    match classify mail with
    | MailClass.immediate => s
    | MailClass.cmdStart n =>
      { write32 s mail with
        mailState := MailState.WRITING_CMD
        expectedCmdMails := n }
    | MailClass.invalid => { s with mailState := MailState.HALTED }
  | MailState.WRITING_CMD =>
    let s1 := write32 s mail
    if s.expectedCmdMails ≤ 1 then
      { s1 with
        mailState := MailState.WAITING
        expectedCmdMails := 0
        pendingCommandsCount := s1.pendingCommandsCount + 1 }
    else
      { s1 with expectedCmdMails := s.expectedCmdMails - 1 }

/-- Iterated mail handling, first mail handled first. -/
def handleMails (classify : Nat → MailClass) (s : ZeldaState) :
    List Nat → ZeldaState
  | [] => s
  | m :: ms => handleMails classify (handleMailModel classify s m) ms

/-- Numeric tag of a `MailState`, used by the serialization model. -/
def mailStateNum : MailState → Int
  | MailState.WAITING => 0
  | MailState.RENDERING => 1
  | MailState.WRITING_CMD => 2
  | MailState.HALTED => 3

/-- Inverse of `mailStateNum`. -/
def mailStateOfNum (n : Int) : MailState :=
  if n = 0 then MailState.WAITING
  else if n = 1 then MailState.RENDERING
  else if n = 2 then MailState.WRITING_CMD
  else MailState.HALTED

/-- Modelled from the spec: `ZeldaUCode::DoState` together with
`ZeldaAudioRenderer::DoState` (their bodies live in `Zelda.cpp`, not part
of the sources).  Per the spec, the full mailbox state, command-buffer
contents and cursors, rendering-progress counters, sync/skip-flag state
and the VPB-independent renderer fields (coefficient tables, addresses,
output volume) are serialized as one atomic unit; here the unit is a flat
list of integers: sixteen scalar fields followed by the five arrays. -/
def serializeState (s : ZeldaState) : List Int :=
  [mailStateNum s.mailState, (s.expectedCmdMails : Int),
   (s.syncMaxVoiceId : Int), (s.readOffset.val : Int),
   (s.writeOffset.val : Int), (s.pendingCommandsCount : Int),
   if s.cmdCanExecute then 1 else 0, (s.renderingRequestedFrames : Int),
   (s.renderingVoicesPerFrame : Int), (s.renderingCurrFrame : Int),
   (s.renderingCurrVoice : Int), (s.vpbBaseAddr : Int),
   (s.outputVolume : Int), (s.outputLbufAddr : Int),
   (s.outputRbufAddr : Int), if s.prepared then 1 else 0]
  ++ List.ofFn (fun i : Fin 256 => (s.syncVoiceSkipFlags i : Int))
  ++ List.ofFn (fun i : Fin 64 => (s.cmdBuffer i : Int))
  ++ List.ofFn s.sineTable
  ++ List.ofFn s.resamplingCoeffs
  ++ List.ofFn s.afcCoeffs

/-- Modelled from the spec: restoring a serialized state (the read
direction of `DoState`).  Consumes the sixteen scalar fields, then splits
the remainder into the five array blocks. -/
def deserializeState (l : List Int) : ZeldaState :=
  match l with
  | ms :: em :: smv :: rd :: wr :: pc :: ce :: rrf :: rvf :: rcf :: rcv ::
      vb :: ov :: lb :: rb :: pr :: rest =>
    let skipL := rest.take 256
    let r1 := rest.drop 256
    let cmdL := r1.take 64
    let r2 := r1.drop 64
    let sineL := r2.take 128
    let r3 := r2.drop 128
    let resL := r3.take 256
    let afcL := r3.drop 256
    { mailState := mailStateOfNum ms
      expectedCmdMails := em.toNat
      syncMaxVoiceId := smv.toNat
      syncVoiceSkipFlags := fun i => (skipL.getD i.val 0).toNat
      cmdBuffer := fun i => (cmdL.getD i.val 0).toNat
      readOffset := ⟨rd.toNat % 64, Nat.mod_lt _ (by omega)⟩
      writeOffset := ⟨wr.toNat % 64, Nat.mod_lt _ (by omega)⟩
      pendingCommandsCount := pc.toNat
      cmdCanExecute := ce ≠ 0
      renderingRequestedFrames := rrf.toNat
      renderingVoicesPerFrame := rvf.toNat
      renderingCurrFrame := rcf.toNat
      renderingCurrVoice := rcv.toNat
      sineTable := fun i => sineL.getD i.val 0
      resamplingCoeffs := fun i => resL.getD i.val 0
      afcCoeffs := fun i => afcL.getD i.val 0
      vpbBaseAddr := vb.toNat
      outputVolume := ov.toNat
      outputLbufAddr := lb.toNat
      outputRbufAddr := rb.toNat
      prepared := pr ≠ 0 }
  | _ => initState

/-- The `BUFFER_SAMPLES` constant of `PulseAudioStream.cpp` (512 frames,
about 10 ms at 48 kHz). -/
def bufferSamples : Nat := 512

/-- The `CHANNEL_COUNT` constant of `PulseAudioStream.cpp` (stereo). -/
def channelCount : Nat := 2

/-- The `BUFFER_SIZE` constant of `PulseAudioStream.cpp`:
`BUFFER_SAMPLES * CHANNEL_COUNT * sizeof(s16)` bytes. -/
def bufferSize : Nat := bufferSamples * channelCount * 2

/-- Embedding of `PulseAudio::UnderflowCallback` acting on the requested
latency: `m_pa_ba.tlength += BUFFER_SIZE`, where `pa_buffer_attr.tlength`
is a `uint32_t`, so the addition wraps modulo `2^32`. -/
def underflowCallback (tlength : Nat) : Nat :=
  (tlength + bufferSize) % 2 ^ 32

/-- The value of `tlength` after `k` underflows, starting from the
`tlength = BUFFER_SIZE` that `PulseInit` configures. -/
def tlengthAfter : Nat → Nat
  | 0 => bufferSize
  | k + 1 => underflowCallback (tlengthAfter k)

section HelperLemmas

/-- Reinterpreting a value already in the signed 32-bit range is the
identity. -/
theorem wrap32_eq_of_range (x : Int) (h1 : -2 ^ 31 ≤ x) (h2 : x < 2 ^ 31) :
    wrap32 x = x := by
  unfold wrap32; omega

/-- The signed 32-bit reinterpretation always lands in the signed range. -/
theorem wrap32_bounds (x : Int) : -2 ^ 31 ≤ wrap32 x ∧ wrap32 x < 2 ^ 31 := by
  unfold wrap32; constructor <;> omega

/-- Wrapping may be fused across additions. -/
theorem wrap32_add_left (a b : Int) : wrap32 (wrap32 a + b) = wrap32 (a + b) := by
  unfold wrap32; omega

/-- Adding a multiple of `2^32` does not change the 32-bit
reinterpretation. -/
theorem wrap32_add_mul (a t : Int) : wrap32 (a + 2 ^ 32 * t) = wrap32 a := by
  unfold wrap32; omega

/-- Reinterpreting a value already in the signed 16-bit range is the
identity. -/
theorem wrap16_eq_of_range (x : Int) (h1 : -2 ^ 15 ≤ x) (h2 : x < 2 ^ 15) :
    wrap16 x = x := by
  unfold wrap16; omega

/-- `getD` on a list built by `List.ofFn` evaluates the generating
function. -/
theorem getD_ofFn {α : Type} {n : Nat} (f : Fin n → α) (d : α) (i : Nat)
    (h : i < n) : (List.ofFn f).getD i d = f ⟨i, h⟩ := by
  have hl : i < (List.ofFn f).length := by rw [List.length_ofFn]; exact h
  rw [List.getD_eq_getElem?_getD, List.getElem?_eq_getElem hl,
    List.getElem_ofFn, Option.getD_some]

/-- Clamping is the identity on values already inside the clamp range. -/
theorem mathUtilClamp_eq_of_range (x lo hi : Int) (h1 : lo ≤ x) (h2 : x ≤ hi) :
    mathUtilClamp x lo hi = x := by
  unfold mathUtilClamp
  rw [if_neg (by omega), if_neg (by omega)]

end HelperLemmas

/-- C2: reading the command buffer when the read cursor has caught up with
the write cursor (no pending words) returns the zero sentinel and leaves
the whole `ZeldaUCode` state — command buffer, both cursors, and the mail
state machine — completely unchanged; the condition is merely logged, not
fatal. -/
theorem read32_underrun_harmless (s : ZeldaState)
    (h : s.readOffset = s.writeOffset) : read32 s = (0, s) := by
  unfold read32
  rw [if_pos h]

/-- Witness for `read32_underrun_harmless` at the freshly constructed
state, whose cursors are both zero. -/
theorem read32_underrun_harmless_witness :
    initState.readOffset = initState.writeOffset ∧
      read32 initState = (0, initState) :=
  ⟨rfl, read32_underrun_harmless initState rfl⟩

/-- C3: mixing with current volume zero and volume step zero is a fast-path
no-op: `AddBuffersWithVolumeRamp` returns the zero volume unchanged and
does not touch a single sample of the destination bus, whatever the source
samples are. -/
theorem addBuffersWithVolumeRamp_zero_noop (dst src : List Int) :
    addBuffersWithVolumeRamp dst src 0 0 = (dst, 0) := by
  unfold addBuffersWithVolumeRamp
  rw [if_pos ⟨rfl, rfl⟩]

/-- C7: a voice with looping disabled whose read offset reaches the
sample-count boundary partway through a requested buffer yields silence
(zero samples) for every remaining position, rather than wrapping or
decoding past the end. -/
theorem loadInputSamples_past_end_silence (data : Nat → Int)
    (sampleCount loopPoint offset requested j : Nat) (hj : j < requested)
    (hpast : sampleCount ≤ offset + j) :
    (loadInputSamples data sampleCount false loopPoint offset
        requested).getD j 0 = 0 := by
  unfold loadInputSamples
  have h1 : ∀ (f : Nat → Int), ((List.range requested).map f).getD j 0 = f j := by
    intro f
    have hml : j < ((List.range requested).map f).length := by
      rw [List.length_map, List.length_range]; exact hj
    rw [List.getD_eq_getElem?_getD, List.getElem?_eq_getElem hml,
      Option.getD_some, List.getElem_map, List.getElem_range]
  rw [h1]
  simp [Nat.not_lt.mpr hpast]

/-- Witness for `loadInputSamples_past_end_silence`: a 5-sample
non-looping voice at offset 3, asked for 4 samples, produces silence at
buffer position 2 (absolute position 5, the end of the sample). -/
theorem loadInputSamples_past_end_silence_witness :
    2 < 4 ∧ 5 ≤ 3 + 2 ∧
      (loadInputSamples (fun _ => 7) 5 false 0 3 4).getD 2 0 = 0 :=
  ⟨by omega, by omega,
    loadInputSamples_past_end_silence (fun _ => 7) 5 0 3 4 2 (by omega)
      (by omega)⟩

/-- Closed form for the latency after `k` underflows: PulseInit starts at
`BUFFER_SIZE` and every underflow adds `BUFFER_SIZE` modulo `2^32`. -/
theorem tlengthAfter_closed (k : Nat) :
    tlengthAfter k = bufferSize * (k + 1) % 2 ^ 32 := by
  induction k with
  | zero =>
    show bufferSize = bufferSize * 1 % 2 ^ 32
    rw [Nat.mul_one]
    rw [Nat.mod_eq_of_lt (by unfold bufferSize bufferSamples channelCount; omega)]
  | succ k ih =>
    show underflowCallback (tlengthAfter k) = _
    rw [ih]
    unfold underflowCallback
    rw [Nat.mod_add_mod]
    have : bufferSize * (k + 1) + bufferSize = bufferSize * (k + 1 + 1) := by ring
    rw [this]

/-- Counterexample to C10: `pa_buffer_attr.tlength` is a `uint32_t`, so
the `+= BUFFER_SIZE` in the underflow callback wraps modulo `2^32`.  The
state `tlength = 2^32 - 2048` is reachable (after `2^21 - 2` underflows
from the initial `BUFFER_SIZE`), and the next underflow callback resets
the latency to 0 — neither an increase by 2048 nor monotone, so the
accumulated latency is in fact bounded. -/
theorem underflowCallback_wraps_cex :
    tlengthAfter (2 ^ 21 - 2) = 2 ^ 32 - 2048 ∧
      underflowCallback (2 ^ 32 - 2048) = 0 ∧
      ¬ 2 ^ 32 - 2048 < underflowCallback (2 ^ 32 - 2048) := by
  refine ⟨?_, ?_, ?_⟩
  · rw [tlengthAfter_closed]
    unfold bufferSize bufferSamples channelCount
    norm_num
  · unfold underflowCallback bufferSize bufferSamples channelCount
    norm_num
  · unfold underflowCallback bufferSize bufferSamples channelCount
    norm_num

/-- C10 (amended): every invocation of the underflow callback adds
`BUFFER_SIZE = 2048` bytes to the requested latency modulo `2^32`; as long
as no 32-bit wraparound occurs (`tlength + 2048 < 2^32`) the increase is
exactly 2048 bytes and strictly monotone, so the accumulated latency grows
without bound only up to the `u32` limit. -/
theorem underflowCallback_adds_bufferSize (t : Nat)
    (h : t + bufferSize < 2 ^ 32) :
    underflowCallback t = t + bufferSize ∧ t < underflowCallback t := by
  unfold underflowCallback
  rw [Nat.mod_eq_of_lt h]
  refine ⟨rfl, ?_⟩
  unfold bufferSize bufferSamples channelCount
  omega

/-- Witness for `underflowCallback_adds_bufferSize` at the initial
latency of 2048 bytes. -/
theorem underflowCallback_adds_bufferSize_witness :
    2048 + bufferSize < 2 ^ 32 ∧
      (underflowCallback 2048 = 2048 + bufferSize ∧
        2048 < underflowCallback 2048) :=
  ⟨by unfold bufferSize bufferSamples channelCount; omega,
    underflowCallback_adds_bufferSize 2048
      (by unfold bufferSize bufferSamples channelCount; omega)⟩

/-- The `u32` product in `ApplyVolumeInPlace` reinterpreted as `s32` is the
exact mathematical product: for an `s16` sample and a `u16` volume the
signed product fits in 32 bits, and the unsigned multiply only differs
from it by a multiple of `2^32`. -/
theorem wrap32_cast_mul (x : Int) (vol : Nat) (hx1 : -0x8000 ≤ x)
    (hx2 : x ≤ 0x7fff) (hv : vol < 0x10000) :
    wrap32 (x % 2 ^ 32 * (vol : Int)) = x * vol := by
  have hv0 : (0 : Int) ≤ (vol : Int) := Int.natCast_nonneg vol
  have hv1 : (vol : Int) ≤ 0xffff := by
    have : (vol : Int) < 0x10000 := by exact_mod_cast hv
    omega
  have hmod : x % 2 ^ 32 = x - 2 ^ 32 * (x / 2 ^ 32) := Int.emod_def x (2 ^ 32)
  have hsplit : x % 2 ^ 32 * (vol : Int)
      = x * vol + 2 ^ 32 * (-(x / 2 ^ 32) * vol) := by
    rw [hmod]; ring
  rw [hsplit, wrap32_add_mul]
  apply wrap32_eq_of_range
  · nlinarith [mul_le_mul_of_nonneg_right hx1 hv0]
  · nlinarith [mul_le_mul_of_nonneg_right hx2 hv0]

/-- C6: for `s16` samples and a `u16` volume, `ApplyVolumeInPlace` replaces
each sample by the integer product of the sample and the volume,
arithmetically shifted right by the fixed-point width — 15 bits for the
1.15 variant, 12 bits for the 4.12 variant — and clamped to
`[-32768, 32767]`. -/
theorem applyVolumeInPlace_spec (buf : List Int) (vol : Nat)
    (hbuf : ∀ x ∈ buf, -0x8000 ≤ x ∧ x ≤ 0x7fff) (hvol : vol < 0x10000) :
    applyVolumeInPlace_1_15 buf vol
        = buf.map (fun x => mathUtilClamp (asr (x * vol) 15) (-0x8000) 0x7fff)
      ∧ applyVolumeInPlace_4_12 buf vol
        = buf.map (fun x => mathUtilClamp (asr (x * vol) 12) (-0x8000) 0x7fff) := by
  constructor
  · unfold applyVolumeInPlace_1_15 applyVolumeInPlace
    apply List.map_congr_left
    intro x hx
    rw [wrap32_cast_mul x vol (hbuf x hx).1 (hbuf x hx).2 hvol]
  · unfold applyVolumeInPlace_4_12 applyVolumeInPlace
    apply List.map_congr_left
    intro x hx
    rw [wrap32_cast_mul x vol (hbuf x hx).1 (hbuf x hx).2 hvol]

/-- Witness for `applyVolumeInPlace_spec` on a four-sample buffer spanning
the extremes of the `s16` range at unity 1.15 volume. -/
theorem applyVolumeInPlace_spec_witness :
    (∀ x ∈ [(100 : Int), -100, 32767, -32768], -0x8000 ≤ x ∧ x ≤ 0x7fff) ∧
      (applyVolumeInPlace_1_15 [(100 : Int), -100, 32767, -32768] 0x8000
          = [(100 : Int), -100, 32767, -32768].map
              (fun x => mathUtilClamp (asr (x * 0x8000) 15) (-0x8000) 0x7fff)
        ∧ applyVolumeInPlace_4_12 [(100 : Int), -100, 32767, -32768] 0x8000
          = [(100 : Int), -100, 32767, -32768].map
              (fun x => mathUtilClamp (asr (x * 0x8000) 12) (-0x8000) 0x7fff)) :=
  ⟨by decide, applyVolumeInPlace_spec _ 0x8000 (by decide) (by decide)⟩

/-- Closed form of the ramp-and-accumulate loop: for an `s32` starting
volume, the sample at index `i` receives the contribution computed from
the running volume `wrap32 (vol + i * step)` (the `s32` value of
`vol + i * step` after `i` wrapping additions of the signed step), and the
returned carried-forward volume is `wrap32 (vol + length * step)`. -/
theorem rampLoop_spec (dst : List Int) :
    ∀ (src : List Int), src.length = dst.length →
    ∀ (vol step : Int), -2 ^ 31 ≤ vol → vol < 2 ^ 31 →
      (rampLoop dst src vol step).2 = wrap32 (vol + dst.length * step)
      ∧ (rampLoop dst src vol step).1.length = dst.length
      ∧ ∀ i, i < dst.length →
          (rampLoop dst src vol step).1.getD i 0
            = wrap16 (dst.getD i 0
                + asr (asr (wrap32 (vol + i * step)) 16 * src.getD i 0) 16) := by
  induction dst with
  | nil =>
    intro src hlen vol step h1 h2
    have hsrc : src = [] := List.length_eq_zero.mp hlen
    subst hsrc
    refine ⟨?_, rfl, ?_⟩
    · show vol = wrap32 (vol + (0 : Nat) * step)
      rw [wrap32_eq_of_range (vol + (0 : Nat) * step) (by push_cast; omega)
        (by push_cast; omega)]
      push_cast
      ring
    · intro i hi
      simp at hi
  | cons d ds ih =>
    intro src hlen vol step h1 h2
    cases src with
    | nil => simp at hlen
    | cons c cs =>
      have hlen' : cs.length = ds.length := by
        simpa using hlen
      have hb := wrap32_bounds (vol + step)
      obtain ⟨ih1, ih2, ih3⟩ :=
        ih cs hlen' (wrap32 (vol + step)) step hb.1 hb.2
      have hunf : rampLoop (d :: ds) (c :: cs) vol step
          = (wrap16 (d + asr (asr vol 16 * c) 16)
              :: (rampLoop ds cs (wrap32 (vol + step)) step).1,
             (rampLoop ds cs (wrap32 (vol + step)) step).2) := rfl
      rw [hunf]
      refine ⟨?_, ?_, ?_⟩
      · show (rampLoop ds cs (wrap32 (vol + step)) step).2 = _
        rw [ih1, wrap32_add_left]
        have : vol + step + (ds.length : Int) * step
            = vol + ((ds.length : Nat) + 1 : Int) * step := by ring
        rw [this]
        have hc : (((d :: ds).length : Nat) : Int) = ((ds.length : Nat) : Int) + 1 := by
          push_cast [List.length_cons]
          ring
        rw [hc]
      · show (rampLoop ds cs (wrap32 (vol + step)) step).1.length + 1 = _
        rw [ih2, List.length_cons]
      · intro i hi
        cases i with
        | zero =>
          show wrap16 (d + asr (asr vol 16 * c) 16) = _
          rw [List.getD_cons_zero, List.getD_cons_zero]
          have : vol + ((0 : Nat) : Int) * step = vol := by push_cast; ring
          rw [this, wrap32_eq_of_range vol h1 h2]
        | succ j =>
          have hj : j < ds.length := by
            simpa using hi
          show (wrap16 (d + asr (asr vol 16 * c) 16)
              :: (rampLoop ds cs (wrap32 (vol + step)) step).1).getD (j + 1) 0 = _
          rw [List.getD_cons_succ, List.getD_cons_succ, List.getD_cons_succ,
            ih3 j hj, wrap32_add_left]
          have : vol + step + (j : Int) * step = vol + ((j : Nat) + 1 : Int) * step := by
            ring
          rw [this]
          have hc : (((j + 1 : Nat)) : Int) = ((j : Nat) : Int) + 1 := by push_cast; ring
          rw [hc]

/-- C4: for an `s32` starting volume and step that are not both zero,
`AddBuffersWithVolumeRamp` over the 80-sample mixing buffer adds to each
destination sample the running volume `wrap32 (vol + i * step)` — the
signed step added once per output sample with 32-bit wraparound and no
clamping — shifted down to the bus scale and multiplied by the source
sample (`((vol >> 16) * src[i]) >> 16`), and returns the carried-forward
running volume `wrap32 (vol + 80 * step)`. -/
theorem addBuffersWithVolumeRamp_ramp_spec (dst src : List Int)
    (hd : dst.length = 80) (hs : src.length = 80) (vol step : Int)
    (hnz : ¬(vol = 0 ∧ step = 0)) (hv1 : -2 ^ 31 ≤ vol) (hv2 : vol < 2 ^ 31) :
    (addBuffersWithVolumeRamp dst src vol step).2 = wrap32 (vol + 80 * step)
    ∧ ∀ i, i < 80 →
        (addBuffersWithVolumeRamp dst src vol step).1.getD i 0
          = wrap16 (dst.getD i 0
              + asr (asr (wrap32 (vol + i * step)) 16 * src.getD i 0) 16) := by
  unfold addBuffersWithVolumeRamp
  rw [if_neg hnz]
  obtain ⟨h1, h2, h3⟩ := rampLoop_spec dst src (by rw [hd, hs]) vol step hv1 hv2
  constructor
  · rw [h1, hd]
    norm_num
  · intro i hi
    exact h3 i (by rw [hd]; exact hi)

/-- Witness for `addBuffersWithVolumeRamp_ramp_spec` on a zeroed 80-sample
bus, a constant source, volume `1.0` in 16.16 fixed point and step 1. -/
theorem addBuffersWithVolumeRamp_ramp_spec_witness :
    (List.replicate 80 (0 : Int)).length = 80
    ∧ (List.replicate 80 (1 : Int)).length = 80
    ∧ ¬((65536 : Int) = 0 ∧ (1 : Int) = 0)
    ∧ ((addBuffersWithVolumeRamp (List.replicate 80 0) (List.replicate 80 1)
          65536 1).2 = wrap32 (65536 + 80 * 1)
       ∧ ∀ i, i < 80 →
          (addBuffersWithVolumeRamp (List.replicate 80 0)
              (List.replicate 80 1) 65536 1).1.getD i 0
            = wrap16 ((List.replicate 80 (0 : Int)).getD i 0
                + asr (asr (wrap32 (65536 + i * 1)) 16
                    * (List.replicate 80 (1 : Int)).getD i 0) 16)) :=
  ⟨by decide, by decide, by decide,
    addBuffersWithVolumeRamp_ramp_spec _ _ (by decide) (by decide) 65536 1
      (by decide) (by decide) (by decide)⟩

/-- The per-sample contribution `((vol >> 16) * src[i]) >> 16` computed
from any `s32` running volume and any `s16` source sample lies in
`[-0x4000, 0x4000]`, well inside the signed 16-bit range. -/
theorem contribution_bound (v c : Int) (hv1 : -2 ^ 31 ≤ v) (hv2 : v < 2 ^ 31)
    (hc1 : -0x8000 ≤ c) (hc2 : c ≤ 0x7fff) :
    -0x8000 ≤ asr (asr v 16 * c) 16 ∧ asr (asr v 16 * c) 16 ≤ 0x7fff := by
  have ha1 : -0x8000 ≤ asr v 16 := by unfold asr; omega
  have ha2 : asr v 16 ≤ 0x7fff := by unfold asr; omega
  have hcorner1 : 0 ≤ (asr v 16 + 0x8000) * (c + 0x8000) :=
    mul_nonneg (by omega) (by omega)
  have hcorner2 : 0 ≤ (0x7fff - asr v 16) * (0x7fff - c) :=
    mul_nonneg (by omega) (by omega)
  have hcorner3 : 0 ≤ (asr v 16 + 0x8000) * (0x7fff - c) :=
    mul_nonneg (by omega) (by omega)
  have hcorner4 : 0 ≤ (0x7fff - asr v 16) * (c + 0x8000) :=
    mul_nonneg (by omega) (by omega)
  have hp1 : -(2 ^ 30) ≤ asr v 16 * c := by nlinarith
  have hp2 : asr v 16 * c ≤ 2 ^ 30 := by nlinarith
  have hq : asr (asr v 16 * c) 16 = asr v 16 * c / 2 ^ 16 := rfl
  rw [hq]
  constructor <;> omega

/-- C5: every per-sample contribution a voice accumulates into a bus —
the volume-times-sample product after the right shift to the bus scale —
lies within `[-32768, 32767]`, so the accumulation performed by
`AddBuffersWithVolumeRamp` coincides exactly with first clamping the
contribution to the signed 16-bit range and then adding it; only the
running ramp volume itself escapes clamping.  (The code contains no
explicit clamp instruction: the claim holds because the shifted
contribution can never leave the range, making the claimed clamp the
identity.) -/
theorem addBuffersWithVolumeRamp_clamped_contribution (dst src : List Int)
    (hd : ∀ x ∈ dst, -0x8000 ≤ x ∧ x ≤ 0x7fff)
    (hs : ∀ x ∈ src, -0x8000 ≤ x ∧ x ≤ 0x7fff)
    (hlen : src.length = dst.length) (vol step : Int)
    (hv1 : -2 ^ 31 ≤ vol) (hv2 : vol < 2 ^ 31) :
    ∀ i, i < dst.length →
      (-0x8000 ≤ asr (asr (wrap32 (vol + i * step)) 16 * src.getD i 0) 16
        ∧ asr (asr (wrap32 (vol + i * step)) 16 * src.getD i 0) 16 ≤ 0x7fff)
      ∧ (addBuffersWithVolumeRamp dst src vol step).1.getD i 0
          = wrap16 (dst.getD i 0
              + mathUtilClamp
                  (asr (asr (wrap32 (vol + i * step)) 16 * src.getD i 0) 16)
                  (-0x8000) 0x7fff) := by
  intro i hi
  have hi' : i < src.length := by rw [hlen]; exact hi
  have hgs : src.getD i 0 = src.get ⟨i, hi'⟩ := by
    rw [List.getD_eq_getElem?_getD, List.getElem?_eq_getElem hi',
      Option.getD_some, List.get_eq_getElem]
  have hgd : dst.getD i 0 = dst.get ⟨i, hi⟩ := by
    rw [List.getD_eq_getElem?_getD, List.getElem?_eq_getElem hi,
      Option.getD_some, List.get_eq_getElem]
  have hsrci : -0x8000 ≤ src.getD i 0 ∧ src.getD i 0 ≤ 0x7fff := by
    rw [hgs]; exact hs _ (src.get_mem i hi')
  have hdsti : -0x8000 ≤ dst.getD i 0 ∧ dst.getD i 0 ≤ 0x7fff := by
    rw [hgd]; exact hd _ (dst.get_mem i hi)
  have hwb := wrap32_bounds (vol + i * step)
  have hbnd := contribution_bound (wrap32 (vol + i * step)) (src.getD i 0)
    hwb.1 hwb.2 hsrci.1 hsrci.2
  refine ⟨hbnd, ?_⟩
  rw [mathUtilClamp_eq_of_range _ _ _ hbnd.1 hbnd.2]
  by_cases hz : vol = 0 ∧ step = 0
  · obtain ⟨hz1, hz2⟩ := hz
    subst hz1
    subst hz2
    have hres : addBuffersWithVolumeRamp dst src 0 0 = (dst, 0) := by
      unfold addBuffersWithVolumeRamp
      rw [if_pos ⟨rfl, rfl⟩]
    rw [hres]
    have he : (0 : Int) + (i : Int) * 0 = 0 := by ring
    rw [he, wrap32_eq_of_range 0 (by omega) (by omega)]
    have h0 : asr 0 16 = 0 := Int.zero_ediv (2 ^ 16)
    rw [h0, zero_mul, h0, add_zero]
    rw [wrap16_eq_of_range _ (by omega) (by omega)]
  · have hres : addBuffersWithVolumeRamp dst src vol step
        = rampLoop dst src vol step := by
      unfold addBuffersWithVolumeRamp
      rw [if_neg hz]
    rw [hres]
    obtain ⟨r1, r2, r3⟩ := rampLoop_spec dst src hlen vol step hv1 hv2
    exact r3 i hi

/-- Witness for `addBuffersWithVolumeRamp_clamped_contribution` on a
two-sample bus with in-range samples and a ramping volume. -/
theorem addBuffersWithVolumeRamp_clamped_contribution_witness :
    (∀ x ∈ [(1000 : Int), -1000], -0x8000 ≤ x ∧ x ≤ 0x7fff)
    ∧ (∀ x ∈ [(2000 : Int), -2000], -0x8000 ≤ x ∧ x ≤ 0x7fff)
    ∧ (∀ i, i < [(1000 : Int), -1000].length →
        (-0x8000 ≤ asr (asr (wrap32 (1048576 + i * 3)) 16
              * [(2000 : Int), -2000].getD i 0) 16
          ∧ asr (asr (wrap32 (1048576 + i * 3)) 16
              * [(2000 : Int), -2000].getD i 0) 16 ≤ 0x7fff)
        ∧ (addBuffersWithVolumeRamp [(1000 : Int), -1000]
              [(2000 : Int), -2000] 1048576 3).1.getD i 0
            = wrap16 ([(1000 : Int), -1000].getD i 0
                + mathUtilClamp
                    (asr (asr (wrap32 (1048576 + i * 3)) 16
                        * [(2000 : Int), -2000].getD i 0) 16)
                    (-0x8000) 0x7fff)) :=
  ⟨by decide, by decide,
    addBuffersWithVolumeRamp_clamped_contribution _ _ (by decide) (by decide)
      (by decide) 1048576 3 (by decide) (by decide)⟩

/-- Distinct small offsets added to the same base cursor give distinct
positions in the 64-slot circular buffer. -/
theorem fin64_add_natCast_ne (a : Fin 64) (i j : Nat) (hi : i < 64)
    (hj : j < 64) (hne : i ≠ j) : a + (i : Fin 64) ≠ a + (j : Fin 64) := by
  intro h
  have h2 : (i : Fin 64) = (j : Fin 64) := add_left_cancel h
  have h3 : ((i : Fin 64)).val = ((j : Fin 64)).val := by rw [h2]
  rw [Fin.val_natCast, Fin.val_natCast] at h3
  omega

/-- Effect of writing a list of at most 64 words with `Write32`: the read
cursor is untouched, the write cursor advances by the list length modulo
64, slot `writeOffset + j` holds the `j`-th written word, and every other
slot is unchanged. -/
theorem writeAll_spec (vs : List Nat) :
    ∀ (s : ZeldaState), vs.length ≤ 64 →
      (writeAll s vs).readOffset = s.readOffset
      ∧ (writeAll s vs).writeOffset = s.writeOffset + (vs.length : Fin 64)
      ∧ (∀ j, j < vs.length →
          (writeAll s vs).cmdBuffer (s.writeOffset + (j : Fin 64))
            = vs.getD j 0)
      ∧ (∀ p : Fin 64,
          (∀ j, j < vs.length → p ≠ s.writeOffset + (j : Fin 64)) →
          (writeAll s vs).cmdBuffer p = s.cmdBuffer p) := by
  induction vs with
  | nil =>
    intro s _
    refine ⟨rfl, ?_, ?_, ?_⟩
    · show s.writeOffset = s.writeOffset + ((0 : Nat) : Fin 64)
      rw [Nat.cast_zero, add_zero]
    · intro j hj
      simp at hj
    · intro p _
      rfl
  | cons v vs ih =>
    intro s hlen
    have hstep : writeAll s (v :: vs) = writeAll (write32 s v) vs := rfl
    have hlen' : vs.length ≤ 64 := by
      rw [List.length_cons] at hlen
      omega
    obtain ⟨ih1, ih2, ih3, ih4⟩ := ih (write32 s v) hlen'
    have hwr : (write32 s v).writeOffset = s.writeOffset + 1 := rfl
    have hcast : ∀ j : Nat, ((j + 1 : Nat) : Fin 64) = 1 + (j : Fin 64) := by
      intro j
      push_cast
      ring
    have hshift : ∀ j : Nat,
        (write32 s v).writeOffset + (j : Fin 64)
          = s.writeOffset + ((j + 1 : Nat) : Fin 64) := by
      intro j
      rw [hwr, hcast]
      ring
    rw [hstep]
    refine ⟨?_, ?_, ?_, ?_⟩
    · rw [ih1]
      rfl
    · rw [ih2, hwr, List.length_cons, hcast]
      ring
    · intro j hj
      cases j with
      | zero =>
        show (writeAll (write32 s v) vs).cmdBuffer
            (s.writeOffset + ((0 : Nat) : Fin 64)) = v
        rw [Nat.cast_zero, add_zero]
        rw [ih4 s.writeOffset ?side]
        case side =>
          intro j' hj'
          rw [hshift j']
          intro heq
          have h0 : ((j' + 1 : Nat) : Fin 64) = 0 := self_eq_add_right.mp heq
          have hval : ((j' + 1 : Nat) : Fin 64).val = 0 := by rw [h0]; rfl
          rw [Fin.val_natCast] at hval
          rw [List.length_cons] at hlen
          omega
        show Function.update s.cmdBuffer s.writeOffset v s.writeOffset = v
        rw [Function.update_same]
      | succ j =>
        have hj' : j < vs.length := by
          rw [List.length_cons] at hj
          omega
        have := ih3 j hj'
        rw [hshift j] at this
        rw [this]
        rfl
    · intro p hp
      rw [ih4 p ?side2]
      case side2 =>
        intro j hj
        rw [hshift j]
        exact hp (j + 1) (by rw [List.length_cons]; omega)
      show Function.update s.cmdBuffer s.writeOffset v p = s.cmdBuffer p
      rw [Function.update_noteq ?pne]
      case pne =>
        have := hp 0 (by rw [List.length_cons]; omega)
        rw [Nat.cast_zero, add_zero] at this
        exact this

/-- Effect of reading back `n` pending words with `Read32`: if the buffer
holds the list `vs` starting at the read cursor and none of those `n`
positions has caught up with the write cursor, then `n` reads return
exactly `vs` and advance the read cursor by `n` modulo 64, touching
nothing else. -/
theorem readN_spec (vs : List Nat) :
    ∀ (s : ZeldaState),
      (∀ j, j < vs.length →
        s.cmdBuffer (s.readOffset + (j : Fin 64)) = vs.getD j 0) →
      (∀ j, j < vs.length → s.readOffset + (j : Fin 64) ≠ s.writeOffset) →
      readN s vs.length
        = (vs, { s with readOffset := s.readOffset + (vs.length : Fin 64) }) := by
  induction vs with
  | nil =>
    intro s _ _
    show ([], s)
        = ([], { s with readOffset := s.readOffset + ((0 : Nat) : Fin 64) })
    rw [Nat.cast_zero, add_zero]
  | cons v vs ih =>
    intro s h1 h2
    have hne : s.readOffset ≠ s.writeOffset := by
      have := h2 0 (by rw [List.length_cons]; omega)
      rw [Nat.cast_zero, add_zero] at this
      exact this
    have hread : read32 s
        = (s.cmdBuffer s.readOffset,
           { s with readOffset := s.readOffset + 1 }) := by
      unfold read32
      rw [if_neg hne]
    have hv : s.cmdBuffer s.readOffset = v := by
      have := h1 0 (by rw [List.length_cons]; omega)
      rw [Nat.cast_zero, add_zero] at this
      exact this
    have hcast : ∀ j : Nat, ((j + 1 : Nat) : Fin 64) = 1 + (j : Fin 64) := by
      intro j
      push_cast
      ring
    have hshift : ∀ j : Nat,
        ({ s with readOffset := s.readOffset + 1 } : ZeldaState).readOffset
            + (j : Fin 64)
          = s.readOffset + ((j + 1 : Nat) : Fin 64) := by
      intro j
      show s.readOffset + 1 + (j : Fin 64) = _
      rw [hcast]
      ring
    have h1' : ∀ j, j < vs.length →
        ({ s with readOffset := s.readOffset + 1 } : ZeldaState).cmdBuffer
            (({ s with readOffset := s.readOffset + 1 } : ZeldaState).readOffset
              + (j : Fin 64))
          = vs.getD j 0 := by
      intro j hj
      rw [hshift j]
      have := h1 (j + 1) (by rw [List.length_cons]; omega)
      rw [List.getD_cons_succ] at this
      exact this
    have h2' : ∀ j, j < vs.length →
        ({ s with readOffset := s.readOffset + 1 } : ZeldaState).readOffset
            + (j : Fin 64)
          ≠ ({ s with readOffset := s.readOffset + 1 } : ZeldaState).writeOffset := by
      intro j hj
      rw [hshift j]
      exact h2 (j + 1) (by rw [List.length_cons]; omega)
    have hihy := ih { s with readOffset := s.readOffset + 1 } h1' h2'
    rw [hshift vs.length] at hihy
    show ((read32 s).1 :: (readN (read32 s).2 vs.length).1,
          (readN (read32 s).2 vs.length).2)
        = (v :: vs,
           { s with readOffset := s.readOffset + (((v :: vs).length : Nat) : Fin 64) })
    rw [hread]
    show (s.cmdBuffer s.readOffset
            :: (readN { s with readOffset := s.readOffset + 1 } vs.length).1,
          (readN { s with readOffset := s.readOffset + 1 } vs.length).2)
        = _
    rw [hihy, hv]
    rfl

/-- C1 (amended): starting from equal read/write cursors, writing `k ≤ 63`
words with `Write32` and then performing exactly `k` `Read32` calls
returns the written words in FIFO order, and one further `Read32` returns
the zero sentinel without advancing the read cursor or otherwise changing
the queue state.  (The bound `k ≤ 63` — one less than the 64-word
capacity — is necessary: at `k = 64` the wrapped write cursor has caught
up with the read cursor again, see the counterexample.) -/
theorem cmdQueue_fifo (s : ZeldaState) (vs : List Nat)
    (hempty : s.readOffset = s.writeOffset) (hlen : vs.length ≤ 63) :
    (readN (writeAll s vs) vs.length).1 = vs
    ∧ read32 (readN (writeAll s vs) vs.length).2
        = (0, (readN (writeAll s vs) vs.length).2) := by
  obtain ⟨w1, w2, w3, w4⟩ := writeAll_spec vs s (by omega)
  have h1 : ∀ j, j < vs.length →
      (writeAll s vs).cmdBuffer ((writeAll s vs).readOffset + (j : Fin 64))
        = vs.getD j 0 := by
    intro j hj
    rw [w1, hempty]
    exact w3 j hj
  have h2 : ∀ j, j < vs.length →
      (writeAll s vs).readOffset + (j : Fin 64)
        ≠ (writeAll s vs).writeOffset := by
    intro j hj
    rw [w1, hempty, w2]
    exact fin64_add_natCast_ne s.writeOffset j vs.length (by omega) (by omega)
      (by omega)
  have hR := readN_spec vs (writeAll s vs) h1 h2
  constructor
  · rw [hR]
  · rw [hR]
    unfold read32
    rw [if_pos ?hc]
    case hc =>
      show (writeAll s vs).readOffset + (vs.length : Fin 64)
          = (writeAll s vs).writeOffset
      rw [w1, hempty, w2]

/-- Witness for `cmdQueue_fifo`: three words written into the fresh queue
come back in order, and the fourth read yields the zero sentinel leaving
the state alone. -/
theorem cmdQueue_fifo_witness :
    initState.readOffset = initState.writeOffset
    ∧ ([5, 6, 7] : List Nat).length ≤ 63
    ∧ ((readN (writeAll initState [5, 6, 7]) 3).1 = [5, 6, 7]
       ∧ read32 (readN (writeAll initState [5, 6, 7]) 3).2
           = (0, (readN (writeAll initState [5, 6, 7]) 3).2)) :=
  ⟨rfl, by decide, cmdQueue_fifo initState [5, 6, 7] rfl (by decide)⟩

/-- Counterexample to C1 as stated for every `k`: writing `k = 64` words
(the full capacity) from equal cursors wraps the write cursor back onto
the read cursor, so the very first of the 64 subsequent reads already
returns the empty-queue sentinel 0 instead of the first written word 1 —
the written sequence is not reproduced. -/
theorem cmdQueue_fifo_cex :
    (readN (writeAll initState (List.replicate 64 1)) 64).1
      ≠ List.replicate 64 1 := by
  decide

/-- Reduction of the mail handler in the WRITING_CMD state: the incoming
mail is unconditionally appended with `Write32`; if it was the last
expected parameter the command is queued and the machine returns to
WAITING, otherwise the expected count decreases. -/
theorem handleMailModel_writing (classify : Nat → MailClass) (s : ZeldaState)
    (mail : Nat) (hst : s.mailState = MailState.WRITING_CMD) :
    handleMailModel classify s mail
      = if s.expectedCmdMails ≤ 1 then
          { write32 s mail with
            mailState := MailState.WAITING
            expectedCmdMails := 0
            pendingCommandsCount := (write32 s mail).pendingCommandsCount + 1 }
        else
          { write32 s mail with
            expectedCmdMails := s.expectedCmdMails - 1 } := by
  unfold handleMailModel
  rw [hst]

/-- C8 (amended): in the WRITING_CMD state the spec-modelled mail handler
appends every incoming mail — whatever its value, including one that would
classify as a fresh opcode in WAITING — as the pending parameter via
`Write32`; once the expected count is exhausted the machine returns to
WAITING with the command queued, and it never transitions to HALTED from
this state. -/
theorem writingCmd_accepts_any_mail (classify : Nat → MailClass)
    (s : ZeldaState) (mail : Nat)
    (hst : s.mailState = MailState.WRITING_CMD) :
    (handleMailModel classify s mail).cmdBuffer s.writeOffset = mail
    ∧ (handleMailModel classify s mail).mailState
        = (if s.expectedCmdMails ≤ 1 then MailState.WAITING
           else MailState.WRITING_CMD)
    ∧ (handleMailModel classify s mail).mailState ≠ MailState.HALTED := by
  rw [handleMailModel_writing classify s mail hst]
  by_cases hexp : s.expectedCmdMails ≤ 1
  · rw [if_pos hexp, if_pos hexp]
    refine ⟨?_, rfl, by intro h; exact MailState.noConfusion h⟩
    show Function.update s.cmdBuffer s.writeOffset mail s.writeOffset = mail
    rw [Function.update_same]
  · rw [if_neg hexp, if_neg hexp]
    refine ⟨?_, hst, ?_⟩
    · show Function.update s.cmdBuffer s.writeOffset mail s.writeOffset = mail
      rw [Function.update_same]
    · show s.mailState ≠ MailState.HALTED
      rw [hst]
      intro h
      exact MailState.noConfusion h

/-- Witness for `writingCmd_accepts_any_mail`: a state expecting one last
parameter accepts an opcode-valued mail as that parameter and returns to
WAITING. -/
theorem writingCmd_accepts_any_mail_witness :
    ({ initState with
        mailState := MailState.WRITING_CMD
        expectedCmdMails := 1 } : ZeldaState).mailState
      = MailState.WRITING_CMD
    ∧ ((handleMailModel (fun _ => MailClass.cmdStart 2)
          { initState with
            mailState := MailState.WRITING_CMD
            expectedCmdMails := 1 } 0x80000001).cmdBuffer
          ({ initState with
              mailState := MailState.WRITING_CMD
              expectedCmdMails := 1 } : ZeldaState).writeOffset = 0x80000001
       ∧ (handleMailModel (fun _ => MailClass.cmdStart 2)
            { initState with
              mailState := MailState.WRITING_CMD
              expectedCmdMails := 1 } 0x80000001).mailState
          = (if ({ initState with
                    mailState := MailState.WRITING_CMD
                    expectedCmdMails := 1 } : ZeldaState).expectedCmdMails ≤ 1
             then MailState.WAITING else MailState.WRITING_CMD)
       ∧ (handleMailModel (fun _ => MailClass.cmdStart 2)
            { initState with
              mailState := MailState.WRITING_CMD
              expectedCmdMails := 1 } 0x80000001).mailState
          ≠ MailState.HALTED) :=
  ⟨rfl, writingCmd_accepts_any_mail (fun _ => MailClass.cmdStart 2) _
    0x80000001 rfl⟩

/-- Protocol classification table used by the C8 counterexample: one
opcode expecting three parameter mails, one expecting two, everything
else an immediate instruction. -/
def classifyEx (m : Nat) : MailClass :=
  if m = 0x80000000 then MailClass.cmdStart 3
  else if m = 0x80000001 then MailClass.cmdStart 2
  else MailClass.immediate

/-- Counterexample to C8 as stated: under the spec's own WRITING_CMD rule
("each incoming mail is appended to the command buffer until the expected
parameter count is reached"), an opcode that expects 3 parameters followed
by only 2 parameter mails and then a different opcode mail does NOT halt:
the different opcode mail is silently written into the command buffer as
the missing third parameter and the machine returns to WAITING. -/
theorem writingCmd_no_halt_cex :
    (handleMails classifyEx initState
        [0x80000000, 1, 2, 0x80000001]).mailState ≠ MailState.HALTED
    ∧ (handleMails classifyEx initState
        [0x80000000, 1, 2, 0x80000001]).mailState = MailState.WAITING
    ∧ (handleMails classifyEx initState
        [0x80000000, 1, 2, 0x80000001]).cmdBuffer 3 = 0x80000001 := by
  refine ⟨?_, ?_, ?_⟩ <;> decide

/-- Decoding the numeric tag of a mail state recovers the state. -/
theorem mailStateOfNum_num (m : MailState) :
    mailStateOfNum (mailStateNum m) = m := by
  cases m <;> rfl

/-- Reduction of `deserializeState` on a list that starts with the sixteen
scalar fields. -/
theorem deserializeState_cons (ms em smv rd wr pc ce rrf rvf rcf rcv vb ov
    lb rb pr : Int) (rest : List Int) :
    deserializeState (ms :: em :: smv :: rd :: wr :: pc :: ce :: rrf :: rvf
        :: rcf :: rcv :: vb :: ov :: lb :: rb :: pr :: rest)
      = { mailState := mailStateOfNum ms
          expectedCmdMails := em.toNat
          syncMaxVoiceId := smv.toNat
          syncVoiceSkipFlags := fun i => ((rest.take 256).getD i.val 0).toNat
          cmdBuffer := fun i => (((rest.drop 256).take 64).getD i.val 0).toNat
          readOffset := ⟨rd.toNat % 64, Nat.mod_lt _ (by omega)⟩
          writeOffset := ⟨wr.toNat % 64, Nat.mod_lt _ (by omega)⟩
          pendingCommandsCount := pc.toNat
          cmdCanExecute := ce ≠ 0
          renderingRequestedFrames := rrf.toNat
          renderingVoicesPerFrame := rvf.toNat
          renderingCurrFrame := rcf.toNat
          renderingCurrVoice := rcv.toNat
          sineTable := fun i => (((rest.drop 256).drop 64).take 128).getD i.val 0
          resamplingCoeffs := fun i =>
            ((((rest.drop 256).drop 64).drop 128).take 256).getD i.val 0
          afcCoeffs := fun i =>
            ((((rest.drop 256).drop 64).drop 128).drop 256).getD i.val 0
          vpbBaseAddr := vb.toNat
          outputVolume := ov.toNat
          outputLbufAddr := lb.toNat
          outputRbufAddr := rb.toNat
          prepared := pr ≠ 0 } := rfl

/-- C9: restoring a serialized protocol+renderer state recovers the state
exactly — mailbox state, command-buffer contents and both cursors,
rendering-progress counters, sync/skip-flag state, coefficient tables,
output addresses and output volume all come back unchanged — so every
subsequent mail-driven run (same `Read32`/`Write32`/`HandleMail` steps on
the same guest memory) behaves identically to the unserialized one. -/
theorem doState_roundtrip (s : ZeldaState) :
    deserializeState (serializeState s) = s := by
  obtain ⟨ms, em, smv, skip, cmd, rd, wr, pc, ce, rrf, rvf, rcf, rcv, sine,
    res, afc, vb, ov, lb, rb, pr⟩ := s
  unfold serializeState
  simp only [List.cons_append, List.nil_append, List.append_assoc]
  rw [deserializeState_cons]
  rw [List.take_left' (List.length_ofFn _), List.drop_left' (List.length_ofFn _),
    List.take_left' (List.length_ofFn _), List.drop_left' (List.length_ofFn _),
    List.take_left' (List.length_ofFn _), List.drop_left' (List.length_ofFn _),
    List.take_left' (List.length_ofFn _), List.drop_left' (List.length_ofFn _)]
  simp only [ZeldaState.mk.injEq]
  refine ⟨mailStateOfNum_num ms, Int.toNat_natCast em, Int.toNat_natCast smv,
    ?_, ?_, ?_, ?_, Int.toNat_natCast pc, ?_, Int.toNat_natCast rrf,
    Int.toNat_natCast rvf, Int.toNat_natCast rcf, Int.toNat_natCast rcv,
    ?_, ?_, ?_, Int.toNat_natCast vb, Int.toNat_natCast ov,
    Int.toNat_natCast lb, Int.toNat_natCast rb, ?_⟩
  · funext i
    rw [getD_ofFn _ _ _ i.isLt, Int.toNat_natCast]
  · funext i
    rw [getD_ofFn _ _ _ i.isLt, Int.toNat_natCast]
  · apply Fin.ext
    show ((rd.val : Int)).toNat % 64 = rd.val
    rw [Int.toNat_natCast]
    exact Nat.mod_eq_of_lt rd.isLt
  · apply Fin.ext
    show ((wr.val : Int)).toNat % 64 = wr.val
    rw [Int.toNat_natCast]
    exact Nat.mod_eq_of_lt wr.isLt
  · cases ce <;> rfl
  · funext i
    rw [getD_ofFn _ _ _ i.isLt]
  · funext i
    rw [getD_ofFn _ _ _ i.isLt]
  · funext i
    rw [getD_ofFn _ _ _ i.isLt]
  · cases pr <;> rfl
